import Mathlib

/-!
Verification of the pulse-schedule composition semantics described in
`docs/tutorials/advanced/terra/pulse/building_pulse_schedules.ipynb`.

The repository ships only the tutorial notebook; the `qiskit.pulse`
implementation of `Schedule` / `Instruction` is not part of the source tree.
The notebook, however, pins down the semantics of the three composition
operations: `insert` unions a schedule with the operand shifted by the given
time, `shift` translates all start times, and `append` is given by explicit
pseudocode (a single insertion time, the maximum busy duration over the
channels common to both schedules).  The definitions below embed that
semantics; amplitudes are inert payload data (represented as scaled integers,
since their values never influence scheduling).
-/

namespace QiskitPulse

/-- Modelled from the spec: a channel is an addressable timeline on which
instructions are placed; the notebook uses `DriveChannel(i)` and notes that
measurements use channels distinct from drive channels. -/
inductive Channel
| DriveChannel (index : Nat)
| MeasureChannel (index : Nat)
deriving DecidableEq

/-- Modelled from the spec: a single timed operation (a pulse) placed on a
channel, with a duration in samples; the amplitude is inert payload here,
kept as an integer in hundredths. -/
structure Instruction where
  channel : Channel
  duration : Nat
  amp : Int
deriving DecidableEq

/-- Modelled from the spec: `ConstantPulse(duration=d, amp=a)` from the
notebook; applying it to a channel yields an `Instruction`. -/
structure ConstantPulse where
  duration : Nat
  amp : Int
deriving DecidableEq

/-- Applying a pulse to a channel, as in `ConstantPulse(...)(DriveChannel(0))`. -/
def ConstantPulse.on (p : ConstantPulse) (c : Channel) : Instruction :=
  ⟨c, p.duration, p.amp⟩

/-- Modelled from the spec: a `Schedule` is a timed collection of
instructions on channels, kept as a list of (start time, instruction)
pairs. -/
structure Schedule where
  instructions : List (Nat × Instruction)
deriving DecidableEq

/-- The set of channels a schedule touches, as a duplicate-free list. -/
def Schedule.channels (s : Schedule) : List Channel :=
  (s.instructions.map (fun ti => ti.2.channel)).dedup

/-- Modelled from the notebook pseudocode's `original_sched.duration(channel)`:
the busy duration of a schedule on one channel, i.e. the maximum end time
(start + duration) over the instructions on that channel, `0` if none. -/
def Schedule.duration (s : Schedule) (c : Channel) : Nat :=
  s.instructions.foldl (fun t ti => if ti.2.channel = c then max t (ti.1 + ti.2.duration) else t) 0

/-- Modelled from the spec: `shift` (also written `<<`) translates every
instruction start time by the offset. -/
def Schedule.shift (s : Schedule) (t : Nat) : Schedule :=
  ⟨s.instructions.map (fun ti => (ti.1 + t, ti.2))⟩

/-- Modelled from the spec: `insert` (also written `|` with time zero)
schedules the operand at the given time, i.e. unions the receiver with the
operand shifted by that time. -/
def Schedule.insert (a : Schedule) (t : Nat) (b : Schedule) : Schedule :=
  ⟨a.instructions ++ (b.shift t).instructions⟩

/-- The channels common to two schedules: the notebook pseudocode's
`intersection(original_sched_channels, appended_sched_channels)`. -/
def sharedChannels (a b : Schedule) : List Channel :=
  a.channels.filter (fun c => c ∈ b.channels)

/-- The single insertion time of `append`, exactly the notebook pseudocode:
`time = 0; for channel in intersection(...): time = max(time, original_sched.duration(channel))`. -/
def appendShiftTime (a b : Schedule) : Nat :=
  (sharedChannels a b).foldl (fun t c => max t (a.duration c)) 0

/-- Modelled from the notebook: `append` (also written `+`) inserts the
operand at the single time computed by `appendShiftTime`. -/
def Schedule.append (a b : Schedule) : Schedule :=
  a.insert (appendShiftTime a b) b

/-- The copy of `b` as it appears inside `a.append b`: all of `b` shifted by
the single insertion time. -/
def appendedPart (a b : Schedule) : List (Nat × Instruction) :=
  (b.shift (appendShiftTime a b)).instructions

/-- Start times of the instructions of a timed list that lie on one channel. -/
def startsOn (l : List (Nat × Instruction)) (c : Channel) : List Nat :=
  l.filterMap (fun ti => if ti.2.channel = c then some ti.1 else none)

/-- Minimum of a list of naturals, `none` on the empty list. -/
def minStart : List Nat → Option Nat
  | [] => none
  | t :: ts =>
    match minStart ts with
    | none => some t
    | some m => some (min t m)

/-- Earliest start time on one channel of a timed instruction list. -/
def startTimeOn (l : List (Nat × Instruction)) (c : Channel) : Option Nat :=
  minStart (startsOn l c)

/-- Earliest start time of a schedule over all channels, `none` if empty. -/
def Schedule.startTime (s : Schedule) : Option Nat :=
  minStart (s.instructions.map Prod.fst)

/-- Modelled from the spec: the overload of the `|` operator; the notebook
states that for `|` "the `time` argument is implicitly zero", i.e. the operand
joins without being shifted. -/
def Schedule.orOp (a b : Schedule) : Schedule :=
  ⟨a.instructions ++ b.instructions⟩

/-- Modelled from the spec: the overload of the `<<` operator, translating
every instruction start time by the offset. -/
def Schedule.shlOp (a : Schedule) (t : Nat) : Schedule :=
  ⟨a.instructions.map (fun ti => (ti.1 + t, ti.2))⟩

/-- Modelled from the spec: the overload of the `+` operator, inserting the
operand at the single time computed by the notebook's pseudocode loop. -/
def Schedule.addOp (a b : Schedule) : Schedule :=
  a.insert (appendShiftTime a b) b

/-- Modelled from the spec: an `insert` method call viewed with explicit
state passing; the triple is (returned schedule, state of the receiver after
the call, state of the argument after the call).  Per the spec the methods
return a new `Schedule` and mutate neither operand. -/
def Schedule.insertCall (a : Schedule) (t : Nat) (b : Schedule) :
    Schedule × Schedule × Schedule :=
  (a.insert t b, a, b)

/-- Modelled from the spec: a `shift` method call with explicit state
passing; the pair is (returned schedule, state of the receiver after the
call). -/
def Schedule.shiftCall (a : Schedule) (t : Nat) : Schedule × Schedule :=
  (a.shift t, a)

/-- Modelled from the spec: an `append` method call with explicit state
passing; the triple is (returned schedule, state of the receiver after the
call, state of the argument after the call). -/
def Schedule.appendCall (a b : Schedule) : Schedule × Schedule × Schedule :=
  (a.append b, a, b)

/-- Modelled from the spec: an `Instruction` viewed as the schedule holding
just that instruction at time zero, the sense in which the notebook says
instructions "can be treated just like `Schedule`s". -/
def Instruction.toSchedule (i : Instruction) : Schedule :=
  ⟨[(0, i)]⟩

/-- Modelled from the spec: `shift` applied directly to an instruction, as in
the notebook's `ConstantPulse(...)(DriveChannel(0)).shift(10)`. -/
def Instruction.shift (i : Instruction) (t : Nat) : Schedule :=
  ⟨[(t, i)]⟩

/-- Modelled from the spec: `insert` with an instruction argument, placing
the instruction at the given time. -/
def Schedule.insertI (a : Schedule) (T : Nat) (i : Instruction) : Schedule :=
  ⟨a.instructions ++ [(T, i)]⟩

/-- Modelled from the spec: `insert` called on an instruction with a schedule
argument. -/
def Instruction.insertS (i : Instruction) (T : Nat) (b : Schedule) : Schedule :=
  ⟨(0, i) :: (b.shift T).instructions⟩

/-- Modelled from the spec: `insert` called on an instruction with an
instruction argument. -/
def Instruction.insertI (i : Instruction) (T : Nat) (j : Instruction) : Schedule :=
  ⟨[(0, i), (T, j)]⟩

/-- Modelled from the spec: `append` with an instruction argument; the
instruction begins when its own channel becomes free in the receiver, at
time zero if the receiver never uses that channel. -/
def Schedule.appendI (a : Schedule) (i : Instruction) : Schedule :=
  ⟨a.instructions ++ [(if i.channel ∈ a.channels then a.duration i.channel else 0, i)]⟩

/-- Modelled from the spec: `append` called on an instruction with a schedule
argument; the argument shifts by the instruction's duration when it shares
the instruction's channel, else by zero. -/
def Instruction.appendS (i : Instruction) (b : Schedule) : Schedule :=
  ⟨(0, i) :: (b.shift (if i.channel ∈ b.channels then i.duration else 0)).instructions⟩

/-- Modelled from the spec: `append` called on an instruction with an
instruction argument. -/
def Instruction.appendI (i j : Instruction) : Schedule :=
  ⟨[(0, i), (if i.channel = j.channel then i.duration else 0, j)]⟩

/-- Default timed instruction used only as the fallback of `List.getD`. -/
def dfltTimed : Nat × Instruction :=
  (0, ⟨Channel.DriveChannel 0, 0, 0⟩)

/-! Concrete schedules mirroring the notebook cells, used for witnesses and
counterexamples.  `exA` is `sched_a` (a 5-sample pulse at time 0 and another
at time 10, both on `DriveChannel(0)`); `exC` is the 20-sample pulse on
`DriveChannel(1)` appended to form `sched_a_plus_c`; `exD` is `sched_d`. -/

/-- The notebook's `sched_a`. -/
def exA : Schedule :=
  ⟨[(0, (ConstantPulse.mk 5 100).on (Channel.DriveChannel 0)),
    (10, (ConstantPulse.mk 5 50).on (Channel.DriveChannel 0))]⟩

/-- The pulse appended to `sched_a` to build the notebook's `sched_a_plus_c`. -/
def exC : Schedule :=
  ⟨[(0, (ConstantPulse.mk 20 20).on (Channel.DriveChannel 1))]⟩

/-- The notebook's `sched_a_plus_c`. -/
def exAC : Schedule :=
  exA.append exC

/-- The notebook's `sched_d`. -/
def exD : Schedule :=
  ⟨[(0, (ConstantPulse.mk 20 (-20)).on (Channel.DriveChannel 0)),
    (10, (ConstantPulse.mk 10 (-20)).on (Channel.DriveChannel 1))]⟩

/-- The empty schedule, as produced by `Schedule(name="A")` in the notebook. -/
def exEmpty : Schedule :=
  ⟨[]⟩

/-- The notebook's `ConstantPulse(duration=5, amp=0.5)(DriveChannel(0))`. -/
def pulseHalf : Instruction :=
  (ConstantPulse.mk 5 50).on (Channel.DriveChannel 0)

/-! Helper lemmas about the fold computing the append insertion time and
about `minStart`. -/

/-- The running maximum in the append-time fold never decreases. -/
lemma le_foldlMax {α : Type} (f : α → Nat) :
    ∀ (l : List α) (acc : Nat), acc ≤ l.foldl (fun t c => max t (f c)) acc := by
  intro l
  induction l with
  | nil => intro acc; exact Nat.le_refl acc
  | cons hd tl ih =>
    intro acc
    exact Nat.le_trans (Nat.le_max_left acc (f hd)) (ih (max acc (f hd)))

/-- The append-time fold dominates `f` on every member of the list. -/
lemma foldlMax_ge_of_mem {α : Type} (f : α → Nat) :
    ∀ (l : List α) (acc : Nat) (c : α), c ∈ l →
      f c ≤ l.foldl (fun t c => max t (f c)) acc := by
  intro l
  induction l with
  | nil => intro acc c hc; cases hc
  | cons hd tl ih =>
    intro acc c hc
    rcases List.mem_cons.mp hc with h | h
    · subst h
      exact Nat.le_trans (Nat.le_max_right acc (f c)) (le_foldlMax f tl (max acc (f c)))
    · exact ih (max acc (f hd)) c h

/-- The append-time fold returns its seed or the value of `f` at some member. -/
lemma foldlMax_eq_or_mem {α : Type} (f : α → Nat) :
    ∀ (l : List α) (acc : Nat),
      l.foldl (fun t c => max t (f c)) acc = acc ∨
        ∃ c ∈ l, l.foldl (fun t c => max t (f c)) acc = f c := by
  intro l
  induction l with
  | nil => intro acc; exact Or.inl rfl
  | cons hd tl ih =>
    intro acc
    rcases ih (max acc (f hd)) with h | ⟨c, hc, h⟩
    · rcases max_choice acc (f hd) with hm | hm
      · exact Or.inl (by simpa [List.foldl, hm] using h)
      · exact Or.inr ⟨hd, List.mem_cons_self hd tl, by simpa [List.foldl, hm] using h⟩
    · exact Or.inr ⟨c, List.mem_cons_of_mem hd hc, h⟩

/-- Shifting by zero is the identity. -/
lemma Schedule.shift_zero (s : Schedule) : s.shift 0 = s := by
  cases s with
  | mk l =>
    simp [Schedule.shift]

/-- Taking the minimum commutes with adding a constant to every element. -/
lemma minStart_map_add (k : Nat) :
    ∀ l : List Nat, minStart (l.map (fun t => t + k)) = (minStart l).map (fun t => t + k) := by
  intro l
  induction l with
  | nil => rfl
  | cons hd tl ih =>
    cases h : minStart tl with
    | none =>
      simp [minStart, ih, h]
    | some m =>
      simp [minStart, ih, h, Option.map]
      omega

/-- The per-channel start times of a shifted instruction list are the original
ones translated by the offset. -/
lemma startsOn_shift (s : Schedule) (t : Nat) (c : Channel) :
    startsOn ((s.shift t).instructions) c = (startsOn s.instructions c).map (fun u => u + t) := by
  cases s with
  | mk l =>
    induction l with
    | nil => rfl
    | cons hd tl ih =>
      by_cases h : hd.2.channel = c
      · simpa [Schedule.shift, startsOn, h] using ih
      · simpa [Schedule.shift, startsOn, h] using ih

/-- The overall start time of a shifted schedule is the original start time
translated by the offset. -/
lemma startTime_shift (s : Schedule) (t : Nat) :
    Schedule.startTime (s.shift t) = (Schedule.startTime s).map (fun u => u + t) := by
  unfold Schedule.startTime Schedule.shift
  rw [List.map_map]
  rw [show (Prod.fst ∘ fun ti : Nat × Instruction => (ti.1 + t, ti.2))
        = (fun u => u + t) ∘ Prod.fst from rfl]
  rw [← List.map_map]
  exact minStart_map_add t _

/-- Indexing into a shifted instruction list translates the start component. -/
lemma getD_map_shift (t : Nat) :
    ∀ (l : List (Nat × Instruction)) (n : Nat), n < l.length →
      (l.map (fun ti => (ti.1 + t, ti.2))).getD n dfltTimed
        = ((l.getD n dfltTimed).1 + t, (l.getD n dfltTimed).2) := by
  intro l
  induction l with
  | nil => intro n h; exact absurd h (Nat.not_lt_zero n)
  | cons hd tl ih =>
    intro n h
    cases n with
    | zero => rfl
    | succ m => exact ih m (Nat.lt_of_succ_lt_succ h)

/-- The one-instruction schedule of an instruction touches exactly its
channel. -/
lemma channels_toSchedule (i : Instruction) : i.toSchedule.channels = [i.channel] := by
  simp [Instruction.toSchedule, Schedule.channels]

/-- The busy duration of a one-instruction schedule on the instruction's
channel is the instruction's duration. -/
lemma duration_toSchedule (i : Instruction) :
    i.toSchedule.duration i.channel = i.duration := by
  simp [Instruction.toSchedule, Schedule.duration]

/-- Filtering by membership in a one-element list is filtering by equality. -/
lemma filter_mem_single {α : Type} [DecidableEq α] (x : α) (l : List α) :
    l.filter (fun c => decide (c ∈ [x])) = l.filter (fun c => decide (c = x)) := by
  apply List.filter_congr
  intro c _
  exact decide_eq_decide.mpr List.mem_singleton

/-- Folding the append-time maximum over the members of a list equal to a
fixed element collapses to an `if` on membership. -/
lemma foldlMax_filter_eq {α : Type} [DecidableEq α] (f : α → Nat) (x : α) :
    ∀ (l : List α) (acc : Nat),
      (l.filter (fun c => decide (c = x))).foldl (fun t c => max t (f c)) acc
        = if x ∈ l then max acc (f x) else acc := by
  intro l
  induction l with
  | nil => intro acc; simp
  | cons hd tl ih =>
    intro acc
    by_cases h : hd = x
    · subst h
      rw [List.filter_cons]
      simp only [decide_eq_true_eq, eq_self_iff_true, if_true]
      rw [List.foldl_cons, ih]
      rw [if_pos (List.mem_cons_self hd tl)]
      by_cases h2 : hd ∈ tl
      · rw [if_pos h2, max_assoc, max_self]
      · rw [if_neg h2]
    · rw [List.filter_cons]
      have hd2 : (decide (hd = x)) = false := by simp [h]
      simp only [hd2, Bool.false_eq_true, if_false]
      rw [ih]
      have hiff : (x ∈ hd :: tl) ↔ (x ∈ tl) := by
        constructor
        · intro hx
          rcases List.mem_cons.mp hx with h1 | h1
          · exact absurd h1.symm h
          · exact h1
        · exact List.mem_cons_of_mem hd
      by_cases h2 : x ∈ tl
      · rw [if_pos h2, if_pos (hiff.mpr h2)]
      · rw [if_neg h2, if_neg (fun hx => h2 (hiff.mp hx))]

/-- The append insertion time against a one-instruction schedule is the
receiver's busy duration on that channel, zero if the channel is absent. -/
lemma appendShiftTime_toSchedule_right (a : Schedule) (i : Instruction) :
    appendShiftTime a i.toSchedule
      = if i.channel ∈ a.channels then a.duration i.channel else 0 := by
  unfold appendShiftTime sharedChannels
  rw [channels_toSchedule, filter_mem_single]
  rw [foldlMax_filter_eq (fun c => a.duration c) i.channel a.channels 0]
  split
  · exact max_eq_right (Nat.zero_le _)
  · rfl

/-- The append insertion time of a one-instruction schedule against a
schedule is the instruction's duration exactly when they share its channel. -/
lemma appendShiftTime_toSchedule_left (i : Instruction) (b : Schedule) :
    appendShiftTime i.toSchedule b
      = if i.channel ∈ b.channels then i.duration else 0 := by
  unfold appendShiftTime sharedChannels
  rw [channels_toSchedule]
  by_cases h : i.channel ∈ b.channels
  · have hd2 : (decide (i.channel ∈ b.channels)) = true := by simp [h]
    rw [List.filter_cons, hd2]
    simp only [if_true, List.filter_nil, List.foldl_cons, List.foldl_nil]
    rw [duration_toSchedule i]
    rw [if_pos h]
    exact max_eq_right (Nat.zero_le _)
  · have hd2 : (decide (i.channel ∈ b.channels)) = false := by simp [h]
    rw [List.filter_cons, hd2]
    simp only [Bool.false_eq_true, if_false, List.filter_nil, List.foldl_nil]
    rw [if_neg h]

/-! Claim theorems. -/

/-- C1: `A.append(B)` places `B` at the single insertion time computed by the
notebook's pseudocode loop (`time = 0; for channel in intersection of the two
channel sets: time = max(time, A's duration on that channel)`): the whole of
`B` is shifted by that one time and inserted into `A`, and that time is the
least upper bound of `A`'s busy durations over the shared channels. -/
theorem append_single_insertion_time (a b : Schedule) :
    (a.append b).instructions
      = a.instructions ++ b.instructions.map (fun ti => (ti.1 + appendShiftTime a b, ti.2))
    ∧ (∀ c ∈ sharedChannels a b, a.duration c ≤ appendShiftTime a b)
    ∧ (appendShiftTime a b = 0 ∨
        ∃ c ∈ sharedChannels a b, appendShiftTime a b = a.duration c) := by
  refine ⟨rfl, ?_, ?_⟩
  · intro c hc
    exact foldlMax_ge_of_mem (fun c => a.duration c) (sharedChannels a b) 0 c hc
  · exact foldlMax_eq_or_mem (fun c => a.duration c) (sharedChannels a b) 0

/-- C2 counterexample: in the notebook's own `sched_a_plus_c + sched_d` cell,
`DriveChannel(0)` is shared, its maximum end time in `sched_a_plus_c` is 15,
yet after the append `sched_d`'s instructions on that channel start at 20
(the single shift is the maximum over all shared channels), not at 15 as the
claim's per-channel alignment would require. -/
theorem append_not_per_channel_start :
    Channel.DriveChannel 0 ∈ sharedChannels exAC exD
    ∧ exAC.duration (Channel.DriveChannel 0) = 15
    ∧ startTimeOn (appendedPart exAC exD) (Channel.DriveChannel 0) = some 20
    ∧ (some 20 : Option Nat) ≠ some 15 := by
  decide

/-- C2 amended: appending `B` to `A` shifts all of `B` uniformly by the single
time `appendShiftTime A B`: on every channel, `B`'s earliest start time in the
appended copy is its original earliest start time on that channel plus that
one time, and that time is zero when the two schedules share no channel. -/
theorem append_per_channel_start_shifted (a b : Schedule) (c : Channel) :
    startTimeOn (appendedPart a b) c
      = (startTimeOn b.instructions c).map (fun u => u + appendShiftTime a b)
    ∧ (sharedChannels a b = [] → appendShiftTime a b = 0) := by
  constructor
  · unfold appendedPart startTimeOn
    rw [startsOn_shift]
    exact minStart_map_add (appendShiftTime a b) (startsOn b.instructions c)
  · intro h
    unfold appendShiftTime
    rw [h]
    rfl

/-- C3 counterexample: the notebook's own `|`-composition with a shifted
operand (`sched |= ConstantPulse(duration=5, amp=0.5)(DriveChannel(0)).shift(10)`)
is an `insert` at time 0 whose operand is then scheduled starting at 10, not
at the insertion time 0: `insert` shifts the operand rather than anchoring
its first instruction at the given time. -/
theorem insert_not_at_given_time :
    Schedule.startTime (exEmpty.insert 0 (pulseHalf.shift 10)) = some 10
    ∧ (some 10 : Option Nat) ≠ some 0 := by
  decide

/-- C3 amended: `A.insert(T, X)` places `X` shifted by exactly `T`: an
instruction is in the result precisely when it is an instruction of `A`
(with its original start time) or an instruction of `X` with its start time
translated by `T`; consequently the shifted copy of `X` starts at `X`'s own
start time plus `T` (exactly `T` when `X` starts at time zero). -/
theorem insert_places_shifted_by_time (a x : Schedule) (T : Nat) :
    (∀ ti : Nat × Instruction,
      ti ∈ (a.insert T x).instructions ↔
        ti ∈ a.instructions ∨ ∃ s i, (s, i) ∈ x.instructions ∧ ti = (s + T, i))
    ∧ Schedule.startTime (x.shift T) = (Schedule.startTime x).map (fun u => u + T) := by
  constructor
  · intro ti
    constructor
    · intro h
      rcases List.mem_append.mp h with h1 | h1
      · exact Or.inl h1
      · rcases List.mem_map.mp h1 with ⟨si, hsi, heq⟩
        exact Or.inr ⟨si.1, si.2, hsi, heq.symm⟩
    · intro h
      rcases h with h1 | ⟨s, i, hsi, heq⟩
      · exact List.mem_append.mpr (Or.inl h1)
      · refine List.mem_append.mpr (Or.inr ?_)
        rw [heq]
        exact List.mem_map.mpr ⟨(s, i), hsi, rfl⟩
  · exact startTime_shift x T

/-- C4: when the two schedules share no channel, `append` inserts the second
schedule at time 0, i.e. unshifted. -/
theorem append_disjoint_at_zero (a b : Schedule)
    (h : ∀ c ∈ a.channels, c ∉ b.channels) :
    a.append b = a.insert 0 b
    ∧ (a.append b).instructions = a.instructions ++ b.instructions := by
  have hshared : sharedChannels a b = [] := by
    unfold sharedChannels
    refine List.filter_eq_nil_iff.mpr ?_
    intro c hc
    simpa using h c hc
  have htime : appendShiftTime a b = 0 := by
    unfold appendShiftTime
    rw [hshared]
    rfl
  have h1 : a.append b = a.insert 0 b := by
    unfold Schedule.append
    rw [htime]
  refine ⟨h1, ?_⟩
  rw [h1]
  unfold Schedule.insert
  rw [Schedule.shift_zero]

/-- C4 witness: the notebook's `sched_a + ConstantPulse(duration=20, amp=0.2)(DriveChannel(1))`,
whose operands touch only `DriveChannel(0)` and `DriveChannel(1)`
respectively, so the appended pulse lands at time 0. -/
theorem append_disjoint_at_zero_witness :
    exA.append exC = exA.insert 0 exC
    ∧ (exA.append exC).instructions = exA.instructions ++ exC.instructions :=
  append_disjoint_at_zero exA exC (by decide)

/-- C5: `shift` translates every instruction start time by exactly the
offset, keeps the instructions themselves (and their listed order), and the
relative order of the start times of any two instructions is unchanged. -/
theorem shift_translates_preserving_order (a : Schedule) (t : Nat) :
    (a.shift t).instructions.map Prod.fst = a.instructions.map (fun ti => ti.1 + t)
    ∧ (a.shift t).instructions.map Prod.snd = a.instructions.map Prod.snd
    ∧ ∀ i j : Fin a.instructions.length,
        (((a.shift t).instructions.getD i.1 dfltTimed).1
            ≤ ((a.shift t).instructions.getD j.1 dfltTimed).1
          ↔ (a.instructions.getD i.1 dfltTimed).1
            ≤ (a.instructions.getD j.1 dfltTimed).1) := by
  refine ⟨?_, ?_, ?_⟩
  · unfold Schedule.shift
    rw [List.map_map]
    rfl
  · unfold Schedule.shift
    rw [List.map_map]
    rfl
  · intro i j
    have hi := getD_map_shift t a.instructions i.1 i.2
    have hj := getD_map_shift t a.instructions j.1 j.2
    unfold Schedule.shift
    rw [hi, hj]
    exact ⟨fun h => Nat.le_of_add_le_add_right h, fun h => Nat.add_le_add_right h t⟩

/-- C6: the operator forms coincide with the method forms: `A | B` is
`A.insert(0, B)` (the implicit time of `|` is zero), `A << t` is
`A.shift(t)`, and `A + B` is `A.append(B)`. -/
theorem operator_forms_match_methods (a b : Schedule) (t : Nat) :
    a.orOp b = a.insert 0 b ∧ a.shlOp t = a.shift t ∧ a.addOp b = a.append b := by
  refine ⟨?_, rfl, rfl⟩
  unfold Schedule.orOp Schedule.insert
  rw [Schedule.shift_zero]

/-- C7: the composition methods are non-mutating: viewed with explicit state
passing, each call returns its result while the receiver and the argument
keep exactly their prior contents, so an operand can be reused afterwards
(appending the operands recovered from an earlier `insert` call gives the
same schedule as appending the originals). -/
theorem compose_nonmutating_reuse (a b : Schedule) (T t : Nat) :
    (a.insertCall T b).2.1 = a ∧ (a.insertCall T b).2.2 = b
    ∧ (a.shiftCall t).2 = a
    ∧ (a.appendCall b).2.1 = a ∧ (a.appendCall b).2.2 = b
    ∧ (((a.insertCall T b).2.1).appendCall ((a.insertCall T b).2.2)).1 = a.append b := by
  exact ⟨rfl, rfl, rfl, rfl, rfl, rfl⟩

/-- C8: instructions are interchangeable with their one-instruction
schedules in every composition operation: for `insert`, `shift`, and
`append`, and each of the schedule-with-instruction,
instruction-with-schedule and instruction-with-instruction operand
combinations, the direct operation agrees with first converting the
instruction(s) into schedules. -/
theorem instruction_schedule_interchangeable (a b : Schedule) (i j : Instruction) (T t : Nat) :
    i.shift t = (i.toSchedule).shift t
    ∧ a.insertI T i = a.insert T i.toSchedule
    ∧ i.insertS T b = (i.toSchedule).insert T b
    ∧ i.insertI T j = (i.toSchedule).insert T j.toSchedule
    ∧ a.appendI i = a.append i.toSchedule
    ∧ i.appendS b = (i.toSchedule).append b
    ∧ i.appendI j = (i.toSchedule).append j.toSchedule := by
  refine ⟨?_, ?_, ?_, ?_, ?_, ?_, ?_⟩
  · simp [Instruction.shift, Instruction.toSchedule, Schedule.shift]
  · simp [Schedule.insertI, Schedule.insert, Instruction.toSchedule, Schedule.shift]
  · rfl
  · simp [Instruction.insertI, Schedule.insert, Instruction.toSchedule, Schedule.shift]
  · unfold Schedule.append
    rw [appendShiftTime_toSchedule_right]
    simp [Schedule.appendI, Schedule.insert, Instruction.toSchedule, Schedule.shift]
  · unfold Schedule.append
    rw [appendShiftTime_toSchedule_left]
    rfl
  · unfold Schedule.append
    rw [appendShiftTime_toSchedule_left]
    rw [channels_toSchedule]
    simp [Instruction.appendI, Schedule.insert, Instruction.toSchedule, Schedule.shift]

end QiskitPulse
